import Mathlib

/-!
# Verification of the superodds core pipeline

Shallow embedding of the odds-math, counterpart-resolution and
aggregation logic of `src/superodds/helper.py` and
`src/superodds/oddsapi.py`.

Modelling conventions:
* Python `float` arithmetic is modelled over `ℚ` (all claims are stated
  "within floating tolerance"; the operations involved — division,
  negation, comparison, `math.ceil` — are exact on the rationals arising
  here).
* Python `int` American prices are modelled as `ℤ`.
* A Python function that may raise is modelled with an explicit result
  type (`PyResult`) carrying the exception case.
-/

namespace Superodds

/-- Result of a Python call: either a value or a raised `TypeError`
(the only exception reachable in the code under study, from
`float(None)`). -/
inductive PyResult (α : Type) where
  | ok : α → PyResult α
  | typeError : PyResult α
  deriving DecidableEq, Repr

/-- `compute_vig_implied_probability` (helper.py:35-43):
`if odds < 0: return abs(odds) / (abs(odds) + 100) else: return 100 / (100 + odds)`. -/
def compute_vig_implied_probability (odds : ℤ) : ℚ :=
  if odds < 0 then ((|odds| : ℤ) : ℚ) / (((|odds| : ℤ) : ℚ) + 100)
  else 100 / (100 + (odds : ℚ))

/-- `compute_no_vig_probabilities` (helper.py:45-55): normalizes the two
vig-included probabilities by their sum. -/
def compute_no_vig_probabilities (odds_team_1 odds_team_2 : ℤ) : ℚ × ℚ :=
  let team_1_vig_incl_prob := compute_vig_implied_probability odds_team_1
  let team_2_vig_incl_prob := compute_vig_implied_probability odds_team_2
  (team_1_vig_incl_prob / (team_1_vig_incl_prob + team_2_vig_incl_prob),
   team_2_vig_incl_prob / (team_1_vig_incl_prob + team_2_vig_incl_prob))

/-- `compute_return_on_bet` (helper.py:57-66):
`if odds < 0: return 100 / abs(odds) else: return odds / 100`. -/
def compute_return_on_bet (odds : ℤ) : ℚ :=
  if odds < 0 then 100 / ((|odds| : ℤ) : ℚ) else (odds : ℚ) / 100

/-- Result of `compute_positive_ev_odds`: the `np.NaN` sentinel, an
integer price, or the `ZeroDivisionError` Python raises when the
break-even return is zero (division `100 / 0.0`). -/
inductive EvOddsResult where
  | nan : EvOddsResult
  | val : ℤ → EvOddsResult
  | zeroDivErr : EvOddsResult
  deriving DecidableEq, Repr

/-- `compute_positive_ev_odds` (helper.py:68-78). The
`break_even_return = 0` test models the `ZeroDivisionError` raised by
`-1 * 100 / break_even_return` in Python when `novig_prob == 1`. -/
def compute_positive_ev_odds (novig_prob : ℚ) : EvOddsResult :=
  if novig_prob = 0 then .nan
  else
    let break_even_return := (1 - novig_prob) / novig_prob
    if break_even_return < 1 then
      if break_even_return = 0 then .zeroDivErr
      else .val ⌈-1 * 100 / break_even_return⌉
    else .val ⌈break_even_return * 100⌉

/-- `determin_arbitrage_opps` (helper.py:81-85). -/
def determin_arbitrage_opps (odds1 odds2 : ℤ) : Bool :=
  decide (compute_vig_implied_probability odds1 + compute_vig_implied_probability odds2 < 1)

/-- `compute_expected_return` (helper.py:93-101). -/
def compute_expected_return (odds : ℤ) (novig_prob : ℚ) : ℚ :=
  if odds < 0 then 100 / ((|odds| : ℤ) : ℚ) * novig_prob - (1 - novig_prob)
  else (odds : ℚ) / 100 * novig_prob - (1 - novig_prob)

/-- `compute_arbitrage_optimization` (helper.py:103-112). -/
def compute_arbitrage_optimization (odd1 odd2 : ℤ) : ℚ × ℚ :=
  let dec_odd1 := 1 + compute_return_on_bet odd1
  let dec_odd2 := 1 + compute_return_on_bet odd2
  let allocation_odds_1 := 1 / (dec_odd1 / dec_odd2 + 1)
  (allocation_odds_1, 1 - allocation_odds_1)

/-- `compute_arbitrage_profit` (helper.py:114-124). -/
def compute_arbitrage_profit (odd1 : ℤ) (odd1_allocation : ℚ)
    (odd2 : ℤ) (odd2_allocation : ℚ) : ℚ × ℚ :=
  let return_odd1 := compute_return_on_bet odd1
  let return_odd2 := compute_return_on_bet odd2
  (return_odd1 * odd1_allocation - odd2_allocation,
   return_odd2 * odd2_allocation - odd1_allocation)

/-- One row of the aggregated dataframe as consumed by
`get_all_positive_ev_arbitrage_opps` (oddsapi.py:340-351); only the
columns that function reads are carried, plus the outcome label. -/
structure FinalRow where
  event_type : String
  ev_pct : ℚ
  arbitrage_ind : Bool
  deriving DecidableEq, Repr

/-- Result of `get_all_positive_ev_arbitrage_opps`: `None`, the
positive-EV dataframe, or the pair (positive-EV, arbitrage). -/
inductive OppsResult where
  | noData : OppsResult
  | posOnly : List FinalRow → OppsResult
  | posAndArb : List FinalRow → List FinalRow → OppsResult
  deriving DecidableEq, Repr

/-- Decision logic of `get_all_positive_ev_arbitrage_opps`
(oddsapi.py:340-351) on the aggregated dataframe:
`positive_ev = df[df.ev_pct > 0]`, `arb_df = df[df.arbitrage_ind == True]`,
return `None` when `positive_ev` is empty, `positive_ev` when `arb_df`
is empty, else the pair. -/
def get_all_positive_ev_arbitrage_opps (odds_dataframe : List FinalRow) : OppsResult :=
  let positive_ev := odds_dataframe.filter (fun r => decide (0 < r.ev_pct))
  let arb_df := odds_dataframe.filter (fun r => r.arbitrage_ind == true)
  if positive_ev.length = 0 then .noData
  else if arb_df.length = 0 then .posOnly positive_ev
  else .posAndArb positive_ev arb_df

/-- `best_odds` column (oddsapi.py:276): `odds_df['odds'].max(axis=1)`,
the numeric maximum of the prices quoted for an outcome (`none` when no
bookmaker quotes it). -/
def bestOdds (quoted : List ℤ) : Option ℤ :=
  quoted.max?

/-! ## Counterpart resolver: string model

`get_counter_event_name` (helper.py:126-154) works by string equality
plus two `re.match` calls.  The two concrete patterns are modelled
directly, with Python's semantics: `re.match` anchors only at the
start, `.` does not match a newline, `$` matches at the end or just
before one trailing newline, `\s`/`\d` as usual, lazy `.+?` grows one
character at a time trying the (greedy) optional tail first. -/

/-- The characters matched by Python's `\s` on `str` patterns
(CPython's `Py_UNICODE_ISSPACE` set): the six ASCII whitespace
characters U+0009–U+000D and U+0020, the separators U+001C–U+001F, NEL
U+0085, NBSP U+00A0, Ogham space U+1680, the typographic spaces
U+2000–U+200A, the line and paragraph separators U+2028/U+2029, narrow
NBSP U+202F, medium mathematical space U+205F and ideographic space
U+3000. -/
def pythonWhitespace : List Char :=
  ['\t', '\n', '\x0b', '\x0c', '\r', '\x1c', '\x1d', '\x1e', '\x1f', ' ',
   '\u0085', '\u00a0', '\u1680', '\u2000', '\u2001', '\u2002', '\u2003',
   '\u2004', '\u2005', '\u2006', '\u2007', '\u2008', '\u2009', '\u200a',
   '\u2028', '\u2029', '\u202f', '\u205f', '\u3000']

/-- Python regex `\s` for `str` patterns (full Unicode whitespace, not
just the ASCII range). -/
def isWsChar (c : Char) : Bool :=
  pythonWhitespace.contains c

/-- Zero-width `$` (no MULTILINE): succeeds when the unconsumed suffix
is empty or a single newline. -/
def dollarMatch (cs : List Char) : Bool :=
  cs = [] || cs = ['\n']

/-- Maximal digit prefix, as matched by a greedy `\d+`. -/
def splitDigits : List Char → List Char × List Char
  | [] => ([], [])
  | c :: cs =>
    if c.isDigit then (c :: (splitDigits cs).1, (splitDigits cs).2)
    else ([], c :: cs)

/-- Maximal whitespace prefix, as matched by a greedy `\s+`. -/
def splitWs : List Char → List Char × List Char
  | [] => ([], [])
  | c :: cs =>
    if isWsChar c then (c :: (splitWs cs).1, (splitWs cs).2)
    else ([], c :: cs)

/-- Match of `\d+(?:\.\d+)?$` against the whole suffix: greedy `\d+`,
greedy optional `\.\d+`, then the pattern's `$`. Returns the matched
text. -/
def numBodyMatch (cs1 : List Char) : Option (List Char) :=
  if (splitDigits cs1).1 = [] then none
  else
    match (splitDigits cs1).2 with
    | '.' :: cs3 =>
      if (splitDigits cs3).1 ≠ [] ∧ dollarMatch (splitDigits cs3).2 = true then
        some ((splitDigits cs1).1 ++ '.' :: (splitDigits cs3).1)
      else none
    | cs2 => if dollarMatch cs2 then some ((splitDigits cs1).1) else none

/-- Match of `[+-]?\d+(?:\.\d+)?$` against the whole suffix `cs` — the
number group of the spread pattern (helper.py:145) followed by the
pattern's `$`. Returns the text of the group. -/
def numTailMatch (cs : List Char) : Option (List Char) :=
  match cs with
  | c :: rest =>
    if c = '+' ∨ c = '-' then (numBodyMatch rest).map (fun v => c :: v)
    else numBodyMatch (c :: rest)
  | [] => numBodyMatch []

/-- Match of `\s+[+-]?\d+(?:\.\d+)?$`, the optional tail of the spread
pattern: one or more whitespace characters, the number, then `$`.
Only the maximal `\s+` split need be tried: the number group cannot
start with whitespace, so shorter whitespace runs always fail. -/
def wsNumTailMatch (cs : List Char) : Option (List Char) :=
  if (splitWs cs).1 = [] then none else numTailMatch (splitWs cs).2

/-- Lazy scan of `(.+?)(?:\s+([+-]?\d+(?:\.\d+)?))?$` (helper.py:145):
`.+?` grows one character at a time (never across a newline); after
each step the greedy optional group is tried first, then bare `$`.
Returns (group 1, optional group 2). -/
def spreadScan (acc : List Char) : List Char → Option (List Char × Option (List Char))
  | [] => none
  | c :: rest =>
    if c = '\n' then none
    else
      match wsNumTailMatch rest with
      | some v => some (acc ++ [c], some v)
      | none =>
        if dollarMatch rest then some (acc ++ [c], none)
        else spreadScan (acc ++ [c]) rest

/-- `re.match` of the spread pattern `(.+?)(?:\s+([+-]?\d+(?:\.\d+)?))?$`
against the whole label. -/
def spreadMatch (s : List Char) : Option (List Char × Option (List Char)) :=
  spreadScan [] s

/-- Groups of the totals pattern after the alternation matched `line`:
a literal space, then `\d+`, then an optional `\.\d+` (prefix match —
trailing junk is ignored). -/
def totalsGroups (line rest : List Char) : Option (List Char × List Char) :=
  match rest with
  | ' ' :: r2 =>
    if (splitDigits r2).1 = [] then none
    else
      match (splitDigits r2).2 with
      | '.' :: r4 =>
        if (splitDigits r4).1 = [] then some (line, (splitDigits r2).1)
        else some (line, (splitDigits r2).1 ++ '.' :: (splitDigits r4).1)
      | _ => some (line, (splitDigits r2).1)
  | _ => none

/-- `re.match(r"(Over|Under) (\d+(\.\d+)?)", s, re.IGNORECASE)`
(helper.py:139): prefix match; returns (group 1 as written in `s`,
group 2). The alternatives are disjoint (`o` vs `u`), so trying
`Over` first is exact. -/
def totalsMatch (s : List Char) : Option (List Char × List Char) :=
  if (s.take 4).map Char.toLower = "over".toList then totalsGroups (s.take 4) (s.drop 4)
  else if (s.take 5).map Char.toLower = "under".toList then totalsGroups (s.take 5) (s.drop 5)
  else none

/-- Model of the Python float produced by `float(<decimal numeral>)`
and rendered by an f-string: a sign plus canonical decimal digits.
`ids`/`fds` are the integer/fraction digits after canonicalization (no
leading zeros in `ids`, `['0']` for zero; no trailing zeros in `fds`,
`[]` for a zero fraction). This models CPython exactly on the decimals
arising here: short decimals (≤ 15 significant digits, magnitude zero
or in `[1e-4, 1e16)`) round-trip through binary64 with `repr`/f-string
returning the canonical shortest form, and unary minus flips only the
sign bit. -/
structure PyFloat where
  neg : Bool
  ids : List Char
  fds : List Char
  deriving DecidableEq, Repr

/-- Drop leading zeros of the integer-part digits (`['0']` if all
zero), as binary64 conversion plus `repr` does. -/
def canonIntDigits (ds : List Char) : List Char :=
  match ds.dropWhile (fun c => c = '0') with
  | [] => ['0']
  | r => r

/-- Drop trailing zeros of the fraction digits, as binary64 conversion
plus shortest-`repr` does. -/
def canonFracDigits (ds : List Char) : List Char :=
  (ds.reverse.dropWhile (fun c => c = '0')).reverse

/-- Digits of the parsed numeral after the optional sign was
stripped. -/
def pyParseDigits (neg : Bool) (cs1 : List Char) : PyFloat :=
  match (splitDigits cs1).2 with
  | '.' :: cs3 =>
    ⟨neg, canonIntDigits (splitDigits cs1).1, canonFracDigits (splitDigits cs3).1⟩
  | _ => ⟨neg, canonIntDigits (splitDigits cs1).1, []⟩

/-- `float(s)` for a numeral `s` of shape `[+-]?\d+(\.\d+)?` (the only
shapes reaching `float` in helper.py). -/
def pyParseFloat (cs : List Char) : PyFloat :=
  pyParseDigits (decide (cs.head? = some '-'))
    (if cs.head? = some '-' ∨ cs.head? = some '+' then cs.tail else cs)

/-- Unary minus on a float flips the sign bit (also on zero:
`-0.0`). -/
def pyNeg (f : PyFloat) : PyFloat := ⟨!f.neg, f.ids, f.fds⟩

/-- `f"{x}"` for a float `x`: `repr` — sign, integer digits, `'.'`,
fraction digits (`0` for an empty fraction, as in `repr(3.0)`). -/
def pyRepr (f : PyFloat) : List Char :=
  (if f.neg then ['-'] else []) ++ f.ids ++ '.' :: (if f.fds = [] then ['0'] else f.fds)

/-- `get_counter_event_name` (helper.py:126-154). The chain of string
equalities, then the totals regex, then the spread regex. The function
raises `TypeError` when the spread pattern matches with its optional
number group absent: line 148 then evaluates `float(None)`. -/
def get_counter_event_name (event_type home_team away_team : String) :
    PyResult (Option String) :=
  if event_type = "No " then .ok (some "Yes ")
  else if event_type = "Yes " then .ok (some "No ")
  else if event_type = home_team ++ " " then .ok (some (away_team ++ " "))
  else if event_type = away_team ++ " " then .ok (some (home_team ++ " "))
  else
    match totalsMatch event_type.toList with
    | some (line, value) =>
      .ok (some (String.mk
        ((if line.map Char.toLower = "over".toList then "Under".toList else "Over".toList)
          ++ ' ' :: value)))
    | none =>
      match spreadMatch event_type.toList with
      | some (_, none) => .typeError
      | some (team, some spread) =>
        .ok (some (String.mk
          ((if String.mk team = home_team then away_team else home_team).toList
            ++ ' ' :: pyRepr (pyNeg (pyParseFloat spread)))))
      | none => .ok none

/-! ## Canonical label families

The involution claim concerns the supported label families.  The
shapes below are exactly the labels the pipeline itself builds
(`f"{name} {point}"` in oddsapi.py:98 and the resolver's own outputs),
written in the canonical spelling the resolver emits. -/

/-- Nonempty all-digit string. -/
def wfDigits (ds : List Char) : Bool :=
  !ds.isEmpty && ds.all Char.isDigit

/-- A float whose digit lists are canonical, i.e. in the image of
`repr`: no leading zeros in the integer part (`['0']` for zero), no
trailing zeros in the fraction (`[]` for a zero fraction). -/
def canonFloat (p : PyFloat) : Bool :=
  wfDigits p.ids && (p.ids == ['0'] || p.ids.head? != some '0') &&
  p.fds.all Char.isDigit && (p.fds.isEmpty || p.fds.getLast? != some '0')

/-- Side conditions on a team name under which the resolver's rules
behave as intended on that team's labels: nonempty, no newline (so
`.+?` can reach the spread tail), no trailing `\s` whitespace — in
Python's full Unicode sense, NBSP and friends included — (so the
spread tail splits exactly at the separator space), not a
case-insensitive `over`/`under` prefix (so the totals rule cannot fire
on its spread labels), and not the literal `No`/`Yes` (so the binary
rules cannot capture its moneyline label). -/
def GoodTeam (t : String) : Prop :=
  t.toList ≠ [] ∧ '\n' ∉ t.toList ∧
  t.toList.getLast?.all (fun c => !isWsChar c) = true ∧
  ¬ (t.toList.take 4).map Char.toLower = "over".toList ∧
  ¬ (t.toList.take 5).map Char.toLower = "under".toList ∧
  t ≠ "No" ∧ t ≠ "Yes"

instance (t : String) : Decidable (GoodTeam t) := by
  unfold GoodTeam
  infer_instance

/-- The canonical labels of the supported families (moneyline, totals,
spread, yes/no) for fixed home/away teams. -/
inductive CanonicalLabel (h a : String) : String → Prop where
  | no : CanonicalLabel h a "No "
  | yes : CanonicalLabel h a "Yes "
  | homeML : CanonicalLabel h a (h ++ " ")
  | awayML : CanonicalLabel h a (a ++ " ")
  | totalInt : ∀ (dir : Bool) (d1 : List Char), wfDigits d1 = true →
      CanonicalLabel h a
        (String.mk ((if dir then "Over" else "Under").toList ++ ' ' :: d1))
  | totalFrac : ∀ (dir : Bool) (d1 d2 : List Char),
      wfDigits d1 = true → wfDigits d2 = true →
      CanonicalLabel h a
        (String.mk ((if dir then "Over" else "Under").toList ++ ' ' :: (d1 ++ '.' :: d2)))
  | spread : ∀ (t : String) (p : PyFloat), (t = h ∨ t = a) → canonFloat p = true →
      CanonicalLabel h a (String.mk (t.toList ++ ' ' :: pyRepr p))

/-! ## Quote grouping and aggregation (`output_odds_csv`)

The `agg_dict`-building loop of `output_odds_csv` (oddsapi.py:231-263)
followed by the dataframe stage (oddsapi.py:265-288).  Python dicts
iterate in insertion order, so they are modelled as association
lists; `d[k] = v` replaces in place or appends. -/

/-- One market line of the `odds_dict` built by `output_game_odds`:
`last_updated_at` plus per-bookmaker bets `bet_type → price`. -/
structure OddsLine where
  last_updated_at : String
  lines : List (String × List (String × ℤ))
  deriving DecidableEq, Repr

/-- The event context the `OddsAPI` object stashes in its
`latest_ran_*` fields (oddsapi.py:106-109). -/
structure RunCtx where
  event_id : String
  home_team : String
  away_team : String
  commence_time : String
  deriving DecidableEq, Repr

/-- A row of `agg_dict` (oddsapi.py:242-254); `event_type_counterpart`
and `no_vig_prob` start out possibly-`None`. -/
structure QuoteRow where
  event_id : String
  home_team : String
  away_team : String
  sportbook : String
  event : String
  event_type : String
  event_type_counterpart : Option String
  event_date : String
  last_updated_at : String
  odds : ℤ
  no_vig_prob : Option ℚ
  deriving DecidableEq, Repr

/-- Python f-string interpolation of the counter event into the row
id: `None` prints as `"None"`. -/
def counterStr : Option String → String
  | none => "None"
  | some s => s

/-- Python dict assignment `d[k] = v`: replace in place, else
append. -/
def setAssoc : List (String × QuoteRow) → String → QuoteRow → List (String × QuoteRow)
  | [], k, v => [(k, v)]
  | (k', v') :: rest, k, v =>
    if k' = k then (k, v) :: rest else (k', v') :: setAssoc rest k v

/-- The inner bet loop of `output_odds_csv` (oddsapi.py:236-263) for
one bookmaker: build a row per bet with `no_vig_prob = None`; for a
non-first bet whose counterpart id is already in `agg_dict`, compute
the no-vig pair from the two stored prices and write it onto both
rows. A `TypeError` from the resolver propagates. -/
def processBets (ctx : RunCtx) (key last_updated sportsbook : String) :
    List (String × ℤ) → ℕ → List (String × QuoteRow) →
    PyResult (List (String × QuoteRow))
  | [], _, agg => .ok agg
  | (bet_type, odd) :: rest, bet_counter, agg =>
    match get_counter_event_name bet_type ctx.home_team ctx.away_team with
    | .typeError => .typeError
    | .ok counter_event =>
      let event_unique_id :=
        ctx.event_id ++ "_" ++ sportsbook ++ "_" ++ key ++ "_" ++ bet_type ++ "_" ++
          last_updated
      let counter_event_unique_id :=
        ctx.event_id ++ "_" ++ sportsbook ++ "_" ++ key ++ "_" ++
          counterStr counter_event ++ "_" ++ last_updated
      let row : QuoteRow :=
        { event_id := ctx.event_id, home_team := ctx.home_team,
          away_team := ctx.away_team, sportbook := sportsbook, event := key,
          event_type := bet_type, event_type_counterpart := counter_event,
          event_date := ctx.commence_time, last_updated_at := last_updated,
          odds := odd, no_vig_prob := none }
      let agg1 := setAssoc agg event_unique_id row
      let agg2 :=
        if bet_counter > 0 then
          match List.lookup counter_event_unique_id agg1,
              List.lookup event_unique_id agg1 with
          | some crow, some erow =>
            setAssoc
              (setAssoc agg1 event_unique_id
                { erow with no_vig_prob := some (compute_no_vig_probabilities erow.odds crow.odds).1 })
              counter_event_unique_id
              { crow with no_vig_prob := some (compute_no_vig_probabilities erow.odds crow.odds).2 }
          | _, _ => agg1
        else agg1
      processBets ctx key last_updated sportsbook rest (bet_counter + 1) agg2

/-- The bookmaker loop of `output_odds_csv` (oddsapi.py:234). -/
def processBooks (ctx : RunCtx) (key last_updated : String) :
    List (String × List (String × ℤ)) → List (String × QuoteRow) →
    PyResult (List (String × QuoteRow))
  | [], agg => .ok agg
  | (sportsbook, odds) :: rest, agg =>
    match processBets ctx key last_updated sportsbook odds 0 agg with
    | .typeError => .typeError
    | .ok agg1 => processBooks ctx key last_updated rest agg1

/-- The outer line loop of `output_odds_csv` (oddsapi.py:232). -/
def processLines (ctx : RunCtx) :
    List (String × OddsLine) → List (String × QuoteRow) →
    PyResult (List (String × QuoteRow))
  | [], agg => .ok agg
  | (key, value) :: rest, agg =>
    match processBooks ctx key value.last_updated_at value.lines agg with
    | .typeError => .typeError
    | .ok agg1 => processLines ctx rest agg1

/-- The `agg_dict`-building phase of `output_odds_csv`
(oddsapi.py:231-263). -/
def output_odds_rows (ctx : RunCtx) (odds_dict : List (String × OddsLine)) :
    PyResult (List (String × QuoteRow)) :=
  processLines ctx odds_dict []

/-- A dataframe row after the two `fillna` steps (oddsapi.py:266-267):
`event_type_counterpart` filled with `'Not Available'`, `no_vig_prob`
filled with `0`. -/
structure FilledRow where
  event_id : String
  home_team : String
  away_team : String
  sportbook : String
  event : String
  event_type : String
  event_type_counterpart : String
  event_date : String
  last_updated_at : String
  odds : ℤ
  no_vig_prob : ℚ
  deriving DecidableEq, Repr

/-- The `fillna` steps (oddsapi.py:266-267) applied to one row. -/
def fillRow (r : QuoteRow) : FilledRow :=
  { event_id := r.event_id, home_team := r.home_team, away_team := r.away_team,
    sportbook := r.sportbook, event := r.event, event_type := r.event_type,
    event_type_counterpart := r.event_type_counterpart.getD "Not Available",
    event_date := r.event_date, last_updated_at := r.last_updated_at,
    odds := r.odds, no_vig_prob := r.no_vig_prob.getD 0 }

/-- The pivot index of oddsapi.py:269-273. -/
def rowKey (r : FilledRow) : List String :=
  [r.event_id, r.home_team, r.away_team, r.event, r.event_type,
   r.event_type_counterpart, r.event_date, r.last_updated_at]

/-- The rows pivoted into one output row: the rows sharing `r`'s pivot
index (one `odds`/`no_vig_prob` column per sportsbook). -/
def groupOf (rows : List FilledRow) (r : FilledRow) : List FilledRow :=
  rows.filter (fun s => decide (rowKey s = rowKey r))

/-- `avg_no_vig_odds` (oddsapi.py:278): the row mean of the filled
per-sportsbook `no_vig_prob` columns. -/
def avgNoVig (rows : List FilledRow) (r : FilledRow) : ℚ :=
  ((groupOf rows r).map (fun s => s.no_vig_prob)).sum / ((groupOf rows r).length : ℚ)

/-- `num_sportsbooks` (oddsapi.py:279): count of non-null odds
columns. -/
def numSportsbooks (rows : List FilledRow) (r : FilledRow) : ℕ :=
  (groupOf rows r).length

/-- `best_odds` of the output row (oddsapi.py:276). -/
def bestOddsOf (rows : List FilledRow) (r : FilledRow) : Option ℤ :=
  bestOdds ((groupOf rows r).map (fun s => s.odds))

/-- `ev_pct` (oddsapi.py:287-288): expected return of the best odds
against the averaged no-vig probability. -/
def evPct (rows : List FilledRow) (r : FilledRow) : Option ℚ :=
  (bestOddsOf rows r).map (fun b => compute_expected_return b (avgNoVig rows r))

/-! ## Basic positivity lemmas -/

lemma cvip_pos (odds : ℤ) : 0 < compute_vig_implied_probability odds := by
  unfold compute_vig_implied_probability
  split
  · apply div_pos
    · exact_mod_cast abs_pos.mpr (by omega)
    · have : (0:ℚ) ≤ ((|odds| : ℤ) : ℚ) := by exact_mod_cast abs_nonneg odds
      linarith
  · apply div_pos (by norm_num)
    have h : (0:ℤ) ≤ odds := by omega
    have : (0:ℚ) ≤ (odds : ℚ) := by exact_mod_cast h
    linarith

lemma cvip_lt_one {odds : ℤ} (h : odds ≠ 0) :
    compute_vig_implied_probability odds < 1 := by
  unfold compute_vig_implied_probability
  split
  · rw [div_lt_one]
    · linarith
    · have : (0:ℚ) ≤ ((|odds| : ℤ) : ℚ) := by exact_mod_cast abs_nonneg odds
      linarith
  · rw [div_lt_one]
    · have h0 : (0:ℤ) < odds := by omega
      have : (0:ℚ) < (odds : ℚ) := by exact_mod_cast h0
      linarith
    · have h0 : (0:ℤ) < odds := by omega
      have : (0:ℚ) < (odds : ℚ) := by exact_mod_cast h0
      linarith

lemma crb_pos {odds : ℤ} (h : odds ≠ 0) : 0 < compute_return_on_bet odds := by
  unfold compute_return_on_bet
  split
  · apply div_pos (by norm_num)
    exact_mod_cast abs_pos.mpr (by omega)
  · apply div_pos
    · have h0 : (0:ℤ) < odds := by omega
      exact_mod_cast h0
    · norm_num

/-! ## Resolver lemmas -/

lemma splitDigits_spec (cs : List Char) :
    cs = (splitDigits cs).1 ++ (splitDigits cs).2 ∧
    (∀ c ∈ (splitDigits cs).1, c.isDigit = true) ∧
    (∀ c, (splitDigits cs).2.head? = some c → c.isDigit = false) := by
  induction cs with
  | nil => simp [splitDigits]
  | cons c rest ih =>
    by_cases hc : c.isDigit
    · simp only [splitDigits, if_pos hc]
      refine ⟨?_, ?_, ih.2.2⟩
      · rw [List.cons_append]
        exact congrArg (c :: ·) ih.1
      · intro x hx
        rcases List.mem_cons.mp hx with rfl | hx
        · exact hc
        · exact ih.2.1 x hx
    · simp only [splitDigits, if_neg hc]
      refine ⟨rfl, by simp, ?_⟩
      intro x hx
      rw [List.head?_cons, Option.some_inj] at hx
      subst hx
      exact Bool.not_eq_true _ ▸ (by simpa using hc)

lemma splitDigits_append {d r : List Char} (hd : ∀ c ∈ d, c.isDigit = true)
    (hr : ∀ c, r.head? = some c → c.isDigit = false) :
    splitDigits (d ++ r) = (d, r) := by
  induction d with
  | nil =>
    cases r with
    | nil => rfl
    | cons c rest => simp [splitDigits, hr c rfl]
  | cons c d' ih =>
    have hc : c.isDigit = true := hd c (List.mem_cons_self _ _)
    simp [splitDigits, hc, ih (fun x hx => hd x (List.mem_cons_of_mem _ hx))]

lemma splitWs_spec (cs : List Char) :
    cs = (splitWs cs).1 ++ (splitWs cs).2 ∧
    (∀ c, (splitWs cs).2.head? = some c → isWsChar c = false) := by
  induction cs with
  | nil => simp [splitWs]
  | cons c rest ih =>
    by_cases hc : isWsChar c
    · simp only [splitWs, if_pos hc]
      refine ⟨?_, ih.2⟩
      rw [List.cons_append]
      exact congrArg (c :: ·) ih.1
    · simp only [splitWs, if_neg hc]
      refine ⟨rfl, ?_⟩
      intro x hx
      rw [List.head?_cons, Option.some_inj] at hx
      subst hx
      simpa using hc

lemma splitWs_not_ws {cs : List Char} (h : ∀ c, cs.head? = some c → isWsChar c = false) :
    splitWs cs = ([], cs) := by
  cases cs with
  | nil => rfl
  | cons c rest => simp [splitWs, h c rfl]

lemma dollarMatch_iff {cs : List Char} : dollarMatch cs = true ↔ cs = [] ∨ cs = ['\n'] := by
  simp [dollarMatch]

/-- Characterization of an accepted `\d+(\.\d+)?$` suffix: the matched
text followed by nothing or a lone newline, all digits and dots. -/
lemma numBodyMatch_eq_some {cs1 v : List Char} (h : numBodyMatch cs1 = some v) :
    (∃ w, (w = [] ∨ w = ['\n']) ∧ cs1 = v ++ w) ∧
    (∀ c ∈ v, c.isDigit = true ∨ c = '.') := by
  obtain ⟨heq, hdig, -⟩ := splitDigits_spec cs1
  unfold numBodyMatch at h
  rcases hsd : splitDigits cs1 with ⟨d1, t1⟩
  rw [hsd] at heq hdig h
  by_cases h1 : d1 = []
  · rw [if_pos h1] at h
    exact absurd h (by simp)
  · rw [if_neg h1] at h
    split at h
    next cs3 hss =>
      obtain ⟨heq3, hdig3, -⟩ := splitDigits_spec cs3
      rcases hsd3 : splitDigits cs3 with ⟨d2, t2⟩
      rw [hsd3] at heq3 hdig3 h
      by_cases hcond : d2 ≠ [] ∧ dollarMatch t2 = true
      · rw [if_pos hcond] at h
        have hv : v = d1 ++ '.' :: d2 := (Option.some_inj.mp h).symm
        subst hv
        refine ⟨⟨t2, dollarMatch_iff.mp hcond.2, ?_⟩, ?_⟩
        · rw [heq, hss, heq3]
          simp
        · intro c hc
          rcases List.mem_append.mp hc with hc1 | hc1
          · exact Or.inl (hdig c hc1)
          · rcases List.mem_cons.mp hc1 with rfl | hc2
            · exact Or.inr rfl
            · exact Or.inl (hdig3 c hc2)
      · rw [if_neg hcond] at h
        exact absurd h (by simp)
    next cs2 hss =>
      by_cases hd : dollarMatch t1 = true
      · rw [if_pos hd] at h
        have hv : v = d1 := (Option.some_inj.mp h).symm
        subst hv
        exact ⟨⟨t1, dollarMatch_iff.mp hd, heq⟩, fun c hc => Or.inl (hdig c hc)⟩
      · rw [if_neg hd] at h
        exact absurd h (by simp)

lemma numTailMatch_eq_some {r v : List Char} (h : numTailMatch r = some v) :
    (∃ w, (w = [] ∨ w = ['\n']) ∧ r = v ++ w) ∧
    (∀ c ∈ v, c = '+' ∨ c = '-' ∨ c.isDigit = true ∨ c = '.') := by
  cases r with
  | nil =>
    unfold numTailMatch at h
    obtain ⟨⟨w, hw, hnil⟩, -⟩ := numBodyMatch_eq_some h
    have hv : v = [] := by
      cases v with
      | nil => rfl
      | cons x xs => simp at hnil
    subst hv
    exact ⟨⟨[], Or.inl rfl, rfl⟩, by simp⟩
  | cons c rest =>
    rw [show numTailMatch (c :: rest) =
        (if c = '+' ∨ c = '-' then (numBodyMatch rest).map (fun v => c :: v)
         else numBodyMatch (c :: rest)) from rfl] at h
    by_cases hsgn : c = '+' ∨ c = '-'
    · rw [if_pos hsgn] at h
      obtain ⟨v', hb, hv⟩ := Option.map_eq_some'.mp h
      obtain ⟨⟨w, hw, hrest⟩, hchars⟩ := numBodyMatch_eq_some hb
      subst hv
      refine ⟨⟨w, hw, by rw [hrest]; rfl⟩, ?_⟩
      intro x hx
      rcases List.mem_cons.mp hx with rfl | hx
      · rcases hsgn with h1 | h1
        · exact Or.inl h1
        · exact Or.inr (Or.inl h1)
      · rcases hchars x hx with h1 | h1
        · exact Or.inr (Or.inr (Or.inl h1))
        · exact Or.inr (Or.inr (Or.inr h1))
    · rw [if_neg hsgn] at h
      obtain ⟨⟨w, hw, hr⟩, hchars⟩ := numBodyMatch_eq_some h
      refine ⟨⟨w, hw, hr⟩, ?_⟩
      intro x hx
      rcases hchars x hx with h1 | h1
      · exact Or.inr (Or.inr (Or.inl h1))
      · exact Or.inr (Or.inr (Or.inr h1))

/-- A suffix containing a space is never accepted by the number
matcher: the group's characters are signs, digits or dots, and `$`
admits only a trailing newline. -/
lemma numTailMatch_no_space {r : List Char} (h : ' ' ∈ r) : numTailMatch r = none := by
  cases hm : numTailMatch r with
  | none => rfl
  | some v =>
    exfalso
    obtain ⟨⟨w, hw, hr⟩, hchars⟩ := numTailMatch_eq_some hm
    rw [hr] at h
    rcases List.mem_append.mp h with h1 | h1
    · rcases hchars ' ' h1 with h2 | h2 | h2 | h2 <;> exact absurd h2 (by decide)
    · rcases hw with rfl | rfl
      · exact absurd h1 (List.not_mem_nil _)
      · exact absurd (List.mem_singleton.mp h1) (by decide)

/-- The whitespace-then-number tail never matches a suffix of
the form `u ++ ' ' :: s` when `u` is nonempty and does not end in
whitespace: the separator space survives into the number part. -/
lemma wsNumTailMatch_sep {s : List Char} :
    ∀ u : List Char, u ≠ [] → (∀ c, u.getLast? = some c → isWsChar c = false) →
    wsNumTailMatch (u ++ ' ' :: s) = none := by
  intro u
  induction u with
  | nil => intro hne _; exact absurd rfl hne
  | cons c u' ih =>
    intro _ hlast
    by_cases hws : isWsChar c
    · cases u' with
      | nil =>
        have := hlast c rfl
        rw [this] at hws
        exact absurd hws (by simp)
      | cons d u'' =>
        have hlast' : ∀ x, (d :: u'').getLast? = some x → isWsChar x = false := by
          intro x hx
          exact hlast x (by rwa [List.getLast?_cons_cons])
        have ih' := ih (by simp) hlast'
        have hsplit : splitWs ((c :: d :: u'') ++ ' ' :: s) =
            (c :: (splitWs ((d :: u'') ++ ' ' :: s)).1,
             (splitWs ((d :: u'') ++ ' ' :: s)).2) := by
          simp [splitWs, hws]
        unfold wsNumTailMatch
        rw [List.cons_append] at hsplit ⊢
        rw [hsplit]
        simp only [reduceCtorEq, if_false]
        by_cases hW : (splitWs ((d :: u'') ++ ' ' :: s)).1 = []
        · have h2 : (splitWs ((d :: u'') ++ ' ' :: s)).2 = (d :: u'') ++ ' ' :: s := by
            have := (splitWs_spec ((d :: u'') ++ ' ' :: s)).1
            rw [hW] at this
            exact this.symm
          rw [h2]
          exact numTailMatch_no_space (by simp)
        · unfold wsNumTailMatch at ih'
          rw [if_neg hW] at ih'
          exact ih'
    · unfold wsNumTailMatch
      have hsplit : splitWs ((c :: u') ++ ' ' :: s) = ([], (c :: u') ++ ' ' :: s) := by
        rw [List.cons_append]
        simp [splitWs, hws]
      rw [hsplit]
      simp

/-- One evaluation step of the lazy scan. -/
lemma spreadScan_cons (acc : List Char) (c : Char) (rest : List Char) :
    spreadScan acc (c :: rest) =
      (if c = '\n' then none
       else
         match wsNumTailMatch rest with
         | some v => some (acc ++ [c], some v)
         | none =>
           if dollarMatch rest then some (acc ++ [c], none)
           else spreadScan (acc ++ [c]) rest) := rfl

/-- The lazy spread scan on a label `t ++ ' ' ++ s` with a well-formed
numeral tail `s` and a team part `t` that is nonempty, newline-free and
has no trailing whitespace: group 1 is exactly `t`, group 2 exactly
`s`. -/
lemma spreadScan_sep {s : List Char} (hs : numTailMatch s = some s)
    (hhead : ∀ c, s.head? = some c → isWsChar c = false) :
    ∀ (t acc : List Char), t ≠ [] → '\n' ∉ t →
      (∀ c, t.getLast? = some c → isWsChar c = false) →
      spreadScan acc (t ++ ' ' :: s) = some (acc ++ t, some s) := by
  intro t
  induction t with
  | nil => intro acc hne _ _; exact absurd rfl hne
  | cons c t' ih =>
    intro acc _ hnl hlast
    have hc : ¬ c = '\n' := fun hh => hnl (hh ▸ List.mem_cons_self _ _)
    cases t' with
    | nil =>
      have hw : wsNumTailMatch (' ' :: s) = some s := by
        have h1 : splitWs (' ' :: s) = ([' '], s) := by
          rw [show splitWs (' ' :: s) = (' ' :: (splitWs s).1, (splitWs s).2) from by
              simp [splitWs, show isWsChar ' ' = true from by decide],
            splitWs_not_ws hhead]
        unfold wsNumTailMatch
        rw [h1]
        simpa using hs
      rw [show ([c] ++ ' ' :: s) = c :: ' ' :: s from rfl, spreadScan_cons, if_neg hc, hw]
    | cons d t'' =>
      have h1 : wsNumTailMatch ((d :: t'') ++ ' ' :: s) = none :=
        wsNumTailMatch_sep _ (by simp) (fun x hx => hlast x (by rwa [List.getLast?_cons_cons]))
      have h2 : ¬ dollarMatch ((d :: t'') ++ ' ' :: s) = true := by
        simp [dollarMatch]
      rw [List.cons_append, spreadScan_cons, if_neg hc, h1, if_neg h2,
        ih (acc ++ [c]) (by simp) (fun hx => hnl (List.mem_cons_of_mem _ hx))
          (fun x hx => hlast x (by rwa [List.getLast?_cons_cons]))]
      simp

lemma digit_not_ws {c : Char} (h : c.isDigit = true) : isWsChar c = false := by
  by_contra hc
  rw [Bool.not_eq_false] at hc
  unfold isWsChar at hc
  have hm : c ∈ pythonWhitespace := by simpa using hc
  fin_cases hm <;> exact absurd h (by decide)

lemma digit_not_sign {c : Char} (h : c.isDigit = true) : ¬ (c = '+' ∨ c = '-') := by
  rintro (rfl | rfl) <;> exact absurd h (by decide)

lemma wfDigits_parts {d : List Char} (h : wfDigits d = true) :
    d ≠ [] ∧ ∀ c ∈ d, c.isDigit = true := by
  unfold wfDigits at h
  simp only [Bool.and_eq_true, Bool.not_eq_true', List.isEmpty_eq_false,
    List.all_eq_true, decide_eq_true_eq] at h
  exact ⟨h.1, h.2⟩

lemma canonFloat_parts {p : PyFloat} (hp : canonFloat p = true) :
    p.ids ≠ [] ∧ (∀ c ∈ p.ids, c.isDigit = true) ∧
    (p.ids = ['0'] ∨ p.ids.head? ≠ some '0') ∧
    (∀ c ∈ p.fds, c.isDigit = true) ∧
    (p.fds = [] ∨ p.fds.getLast? ≠ some '0') := by
  unfold canonFloat at hp
  simp only [Bool.and_eq_true, Bool.or_eq_true, beq_iff_eq, bne_iff_ne, ne_eq,
    List.all_eq_true, decide_eq_true_eq, List.isEmpty_iff] at hp
  obtain ⟨⟨⟨hwf, hlead⟩, hfd⟩, hlast⟩ := hp
  obtain ⟨hne, hdig⟩ := wfDigits_parts hwf
  exact ⟨hne, hdig, by tauto, hfd, by tauto⟩

/-- The fraction digits as printed: `['0']` for an empty fraction. -/
lemma printedFrac_parts {p : PyFloat} (hp : canonFloat p = true) :
    (if p.fds = [] then ['0'] else p.fds) ≠ [] ∧
    ∀ c ∈ (if p.fds = [] then ['0'] else p.fds), c.isDigit = true := by
  obtain ⟨-, -, -, hfd, -⟩ := canonFloat_parts hp
  by_cases hfe : p.fds = []
  · rw [if_pos hfe]
    exact ⟨by simp, by intro c hc; rw [List.mem_singleton.mp hc]; decide⟩
  · rw [if_neg hfe]
    exact ⟨hfe, hfd⟩

lemma pyRepr_eq_neg {p : PyFloat} (hn : p.neg = true) :
    pyRepr p = '-' :: (p.ids ++ '.' :: (if p.fds = [] then ['0'] else p.fds)) := by
  unfold pyRepr
  rw [hn, if_pos rfl, List.singleton_append, List.cons_append]

lemma pyRepr_eq_pos {p : PyFloat} (hn : p.neg = false) :
    pyRepr p = p.ids ++ '.' :: (if p.fds = [] then ['0'] else p.fds) := by
  unfold pyRepr
  rw [hn, if_neg (by simp), List.nil_append]

lemma getLast?_cons_of_ne_nil {x : Char} {l : List Char} (hl : l ≠ []) :
    (x :: l).getLast? = l.getLast? := by
  cases l with
  | nil => exact absurd rfl hl
  | cons y ys => rw [List.getLast?_cons_cons]

lemma head?_append_of_ne_nil {l r : List Char} (hl : l ≠ []) :
    (l ++ r).head? = l.head? := by
  cases l with
  | nil => exact absurd rfl hl
  | cons x xs => rfl

lemma pyRepr_ne_nil {p : PyFloat} (hp : canonFloat p = true) : pyRepr p ≠ [] := by
  obtain ⟨hne, -⟩ := canonFloat_parts hp
  cases hn : p.neg with
  | true => rw [pyRepr_eq_neg hn]; simp
  | false => rw [pyRepr_eq_pos hn]; simp [hne]

lemma pyRepr_head_not_ws {p : PyFloat} (hp : canonFloat p = true) :
    ∀ c, (pyRepr p).head? = some c → isWsChar c = false := by
  obtain ⟨hne, hdig, -, -, -⟩ := canonFloat_parts hp
  intro c hc
  cases hn : p.neg with
  | true =>
    rw [pyRepr_eq_neg hn, List.head?_cons, Option.some_inj] at hc
    rw [← hc]
    decide
  | false =>
    rw [pyRepr_eq_pos hn, head?_append_of_ne_nil hne] at hc
    cases hids : p.ids with
    | nil => exact absurd hids hne
    | cons i is =>
      rw [hids, List.head?_cons, Option.some_inj] at hc
      rw [← hc]
      exact digit_not_ws (hdig i (by rw [hids]; exact List.mem_cons_self _ _))

lemma pyRepr_getLast_digit {p : PyFloat} (hp : canonFloat p = true) :
    ∃ c, (pyRepr p).getLast? = some c ∧ c.isDigit = true := by
  obtain ⟨hF, hFdig⟩ := printedFrac_parts hp
  refine ⟨(if p.fds = [] then ['0'] else p.fds).getLast hF, ?_,
    hFdig _ (List.getLast_mem hF)⟩
  have h1 : ('.' :: (if p.fds = [] then ['0'] else p.fds)).getLast? =
      some ((if p.fds = [] then ['0'] else p.fds).getLast hF) := by
    rw [getLast?_cons_of_ne_nil hF, List.getLast?_eq_getLast _ hF]
  cases hn : p.neg with
  | true =>
    rw [pyRepr_eq_neg hn, getLast?_cons_of_ne_nil (by simp), List.getLast?_append, h1]
    rfl
  | false =>
    rw [pyRepr_eq_pos hn, List.getLast?_append, h1]
    rfl

lemma canonFloat_pyNeg {p : PyFloat} : canonFloat (pyNeg p) = canonFloat p := rfl

lemma pyNeg_pyNeg (p : PyFloat) : pyNeg (pyNeg p) = p := by
  unfold pyNeg
  simp

lemma numBodyMatch_wf {d1 d2 : List Char} (h1 : d1 ≠ []) (hd1 : ∀ c ∈ d1, c.isDigit = true)
    (h2 : d2 ≠ []) (hd2 : ∀ c ∈ d2, c.isDigit = true) :
    numBodyMatch (d1 ++ '.' :: d2) = some (d1 ++ '.' :: d2) := by
  have hs1 : splitDigits (d1 ++ '.' :: d2) = (d1, '.' :: d2) :=
    splitDigits_append hd1 (by
      intro c hc
      rw [List.head?_cons, Option.some_inj] at hc
      rw [← hc]
      decide)
  have hs2 : splitDigits d2 = (d2, []) := by
    have := splitDigits_append (r := []) hd2 (by intro c hc; simp at hc)
    simpa using this
  unfold numBodyMatch
  rw [hs1]
  simp only []
  rw [if_neg h1]
  simp only [hs2]
  rw [if_pos ⟨h2, by decide⟩]

/-- One evaluation step of the sign handling of the number matcher. -/
lemma numTailMatch_cons (c : Char) (rest : List Char) :
    numTailMatch (c :: rest) =
      (if c = '+' ∨ c = '-' then (numBodyMatch rest).map (fun v => c :: v)
       else numBodyMatch (c :: rest)) := rfl

lemma numTailMatch_eq_body {cs : List Char}
    (h : ∀ c, cs.head? = some c → ¬ (c = '+' ∨ c = '-')) :
    numTailMatch cs = numBodyMatch cs := by
  cases cs with
  | nil => rfl
  | cons c rest => rw [numTailMatch_cons, if_neg (h c rfl)]

lemma numTailMatch_pyRepr {p : PyFloat} (hp : canonFloat p = true) :
    numTailMatch (pyRepr p) = some (pyRepr p) := by
  obtain ⟨hne, hdig, -, -, -⟩ := canonFloat_parts hp
  obtain ⟨hF, hFdig⟩ := printedFrac_parts hp
  have hbody : numBodyMatch (p.ids ++ '.' :: (if p.fds = [] then ['0'] else p.fds)) =
      some (p.ids ++ '.' :: (if p.fds = [] then ['0'] else p.fds)) :=
    numBodyMatch_wf hne hdig hF hFdig
  cases hn : p.neg with
  | true =>
    rw [pyRepr_eq_neg hn, numTailMatch_cons,
      if_pos (show ('-' : Char) = '+' ∨ ('-' : Char) = '-' from Or.inr rfl), hbody]
    rfl
  | false =>
    have hh : ∀ c, (p.ids ++ '.' :: (if p.fds = [] then ['0'] else p.fds)).head? = some c →
        ¬ (c = '+' ∨ c = '-') := by
      intro c hc
      rw [head?_append_of_ne_nil hne] at hc
      cases hids : p.ids with
      | nil => exact absurd hids hne
      | cons i is =>
        rw [hids, List.head?_cons, Option.some_inj] at hc
        rw [← hc]
        exact digit_not_sign (hdig i (by rw [hids]; exact List.mem_cons_self _ _))
    rw [pyRepr_eq_pos hn, numTailMatch_eq_body hh, hbody]

lemma canonIntDigits_eq {ids : List Char}
    (h : ids = ['0'] ∨ ids.head? ≠ some '0') (hne : ids ≠ []) :
    canonIntDigits ids = ids := by
  rcases h with rfl | h
  · rfl
  · cases ids with
    | nil => exact absurd rfl hne
    | cons i is =>
      have hi : ¬ (i = '0') := by
        intro hh
        exact h (by rw [List.head?_cons, hh])
      unfold canonIntDigits
      rw [List.dropWhile_cons, if_neg (by simpa using hi)]

lemma canonFracDigits_eq {fds : List Char} (h : fds = [] ∨ fds.getLast? ≠ some '0') :
    canonFracDigits fds = fds := by
  rcases h with rfl | h
  · rfl
  · unfold canonFracDigits
    cases hf : fds.reverse with
    | nil =>
      have : fds = [] := by simpa using congrArg List.reverse hf
      rw [this]
      rfl
    | cons c rest =>
      have hc : ¬ (c = '0') := by
        intro hh
        apply h
        rw [← List.head?_reverse, hf, List.head?_cons, hh]
      rw [List.dropWhile_cons, if_neg (by simpa using hc), ← hf, List.reverse_reverse]

lemma pyParseDigits_frac {neg : Bool} {cs1 F d : List Char}
    (hsplit : splitDigits cs1 = (d, '.' :: F)) :
    pyParseDigits neg cs1 = ⟨neg, canonIntDigits d, canonFracDigits (splitDigits F).1⟩ := by
  unfold pyParseDigits
  rw [hsplit]
  rfl

/-- Evaluation of the float parser when a sign is present. -/
lemma pyParseFloat_neg_frac {cs F d : List Char}
    (hsplit : splitDigits cs = (d, '.' :: F)) :
    pyParseFloat ('-' :: cs) = ⟨true, canonIntDigits d, canonFracDigits (splitDigits F).1⟩ := by
  unfold pyParseFloat
  rw [if_pos (show ('-' :: cs).head? = some '-' ∨ ('-' :: cs).head? = some '+' from
    Or.inl rfl)]
  simp only [List.tail_cons]
  rw [pyParseDigits_frac hsplit]
  congr 1

/-- Evaluation of the float parser on an unsigned numeral. -/
lemma pyParseFloat_frac {cs F d : List Char}
    (hsign : ¬ (cs.head? = some '-' ∨ cs.head? = some '+'))
    (hsplit : splitDigits cs = (d, '.' :: F)) :
    pyParseFloat cs = ⟨false, canonIntDigits d, canonFracDigits (splitDigits F).1⟩ := by
  unfold pyParseFloat
  rw [if_neg hsign, pyParseDigits_frac hsplit]
  congr 1
  exact decide_eq_false (fun hh => hsign (Or.inl hh))

lemma pyParseFloat_pyRepr {p : PyFloat} (hp : canonFloat p = true) :
    pyParseFloat (pyRepr p) = p := by
  obtain ⟨hne, hdig, hlead, -, hlast⟩ := canonFloat_parts hp
  obtain ⟨hF, hFdig⟩ := printedFrac_parts hp
  have hs1 : splitDigits (p.ids ++ '.' :: (if p.fds = [] then ['0'] else p.fds)) =
      (p.ids, '.' :: (if p.fds = [] then ['0'] else p.fds)) :=
    splitDigits_append hdig (by
      intro c hc
      rw [List.head?_cons, Option.some_inj] at hc
      rw [← hc]
      decide)
  have hsF : splitDigits (if p.fds = [] then ['0'] else p.fds) =
      ((if p.fds = [] then ['0'] else p.fds), []) := by
    have := splitDigits_append (r := []) hFdig (by intro c hc; simp at hc)
    simpa using this
  have hcanonF : canonFracDigits (if p.fds = [] then ['0'] else p.fds) = p.fds := by
    by_cases hfe : p.fds = []
    · rw [if_pos hfe, hfe]
      rfl
    · rw [if_neg hfe]
      exact canonFracDigits_eq (Or.inr (by tauto))
  cases hn : p.neg with
  | true =>
    rw [pyRepr_eq_neg hn, pyParseFloat_neg_frac hs1]
    rw [hsF]
    simp only []
    rw [canonIntDigits_eq hlead hne, hcanonF]
    cases p with
    | mk neg ids fds =>
      simp only at hn
      rw [hn]
  | false =>
    have hsign : ¬ ((p.ids ++ '.' :: (if p.fds = [] then ['0'] else p.fds)).head? = some '-' ∨
        (p.ids ++ '.' :: (if p.fds = [] then ['0'] else p.fds)).head? = some '+') := by
      rw [head?_append_of_ne_nil hne]
      cases hids : p.ids with
      | nil => exact absurd hids hne
      | cons i is =>
        rw [List.head?_cons]
        rintro (hh | hh) <;>
        · rw [Option.some_inj] at hh
          have hdi : i.isDigit = true :=
            hdig i (by rw [hids]; exact List.mem_cons_self _ _)
          rw [hh] at hdi
          exact absurd hdi (by decide)
    rw [pyRepr_eq_pos hn, pyParseFloat_frac hsign hs1]
    rw [hsF]
    simp only []
    rw [canonIntDigits_eq hlead hne, hcanonF]
    cases p with
    | mk neg ids fds =>
      simp only at hn
      rw [hn]

lemma getLast_all_not_ws {l : List Char} (h : l.getLast?.all (fun c => !isWsChar c) = true) :
    ∀ c, l.getLast? = some c → isWsChar c = false := by
  intro c hc
  rw [hc, Option.all_some] at h
  simpa using h

/-- One evaluation step of `totalsGroups` after the literal space. -/
lemma totalsGroups_space (line r2 : List Char) :
    totalsGroups line (' ' :: r2) =
      (if (splitDigits r2).1 = [] then none
       else
         match (splitDigits r2).2 with
         | '.' :: r4 =>
           if (splitDigits r4).1 = [] then some (line, (splitDigits r2).1)
           else some (line, (splitDigits r2).1 ++ '.' :: (splitDigits r4).1)
         | _ => some (line, (splitDigits r2).1)) := rfl

lemma totalsGroups_int {line d1 : List Char} (h : wfDigits d1 = true) :
    totalsGroups line (' ' :: d1) = some (line, d1) := by
  obtain ⟨hne, hdig⟩ := wfDigits_parts h
  have hs : splitDigits d1 = (d1, []) := by
    have := splitDigits_append (r := []) hdig (by intro c hc; simp at hc)
    simpa using this
  rw [totalsGroups_space, hs]
  simp only []
  rw [if_neg hne]

lemma totalsGroups_frac {line d1 d2 : List Char}
    (h1 : wfDigits d1 = true) (h2 : wfDigits d2 = true) :
    totalsGroups line (' ' :: (d1 ++ '.' :: d2)) = some (line, d1 ++ '.' :: d2) := by
  obtain ⟨hne1, hdig1⟩ := wfDigits_parts h1
  obtain ⟨hne2, hdig2⟩ := wfDigits_parts h2
  have hs1 : splitDigits (d1 ++ '.' :: d2) = (d1, '.' :: d2) :=
    splitDigits_append hdig1 (by
      intro c hc
      rw [List.head?_cons, Option.some_inj] at hc
      rw [← hc]
      decide)
  have hs2 : splitDigits d2 = (d2, []) := by
    have := splitDigits_append (r := []) hdig2 (by intro c hc; simp at hc)
    simpa using this
  rw [totalsGroups_space, hs1]
  simp only []
  rw [if_neg hne1, hs2]
  simp only []
  rw [if_neg hne2]

lemma totalsMatch_over (v : List Char) :
    totalsMatch ("Over".toList ++ ' ' :: v) = totalsGroups "Over".toList (' ' :: v) := by
  unfold totalsMatch
  rw [if_pos (show ((("Over".toList ++ ' ' :: v)).take 4).map Char.toLower = "over".toList
    from rfl)]
  rfl

lemma totalsMatch_under (v : List Char) :
    totalsMatch ("Under".toList ++ ' ' :: v) = totalsGroups "Under".toList (' ' :: v) := by
  unfold totalsMatch
  rw [if_neg (show ¬ ((("Under".toList ++ ' ' :: v)).take 4).map Char.toLower = "over".toList
    from by
      rw [show ((("Under".toList ++ ' ' :: v)).take 4).map Char.toLower = ['u','n','d','e']
        from rfl]
      decide),
    if_pos (show ((("Under".toList ++ ' ' :: v)).take 5).map Char.toLower = "under".toList
    from rfl)]
  rfl

/-- On a label `team ++ ' ' ++ rest` whose team part is not itself a
case-insensitive `over`/`under` prefix, the totals pattern never
matches: either the team's own first letters disagree, or the label's
fourth/fifth character is the separator space, which `over`/`under`
does not contain. -/
lemma totalsMatch_none_of_team {tl : List Char} (s : List Char)
    (h4 : ¬ (tl.take 4).map Char.toLower = "over".toList)
    (h5 : ¬ (tl.take 5).map Char.toLower = "under".toList) :
    totalsMatch (tl ++ ' ' :: s) = none := by
  have hover : ¬ ((tl ++ ' ' :: s).take 4).map Char.toLower = "over".toList := by
    intro heq
    rw [List.take_append_eq_append_take, List.map_append] at heq
    by_cases hlen : 4 ≤ tl.length
    · rw [show 4 - tl.length = 0 by omega] at heq
      simp only [List.take_zero, List.map_nil, List.append_nil] at heq
      exact h4 heq
    · obtain ⟨k, hk⟩ : ∃ k, 4 - tl.length = k + 1 := ⟨4 - tl.length - 1, by omega⟩
      rw [hk, List.take_succ_cons] at heq
      have hmem : Char.toLower ' ' ∈ (tl.take 4).map Char.toLower ++
          List.map Char.toLower (' ' :: List.take k s) := by
        apply List.mem_append_right
        rw [List.map_cons]
        exact List.mem_cons_self _ _
      rw [heq] at hmem
      exact absurd hmem (by decide)
  have hunder : ¬ ((tl ++ ' ' :: s).take 5).map Char.toLower = "under".toList := by
    intro heq
    rw [List.take_append_eq_append_take, List.map_append] at heq
    by_cases hlen : 5 ≤ tl.length
    · rw [show 5 - tl.length = 0 by omega] at heq
      simp only [List.take_zero, List.map_nil, List.append_nil] at heq
      exact h5 heq
    · obtain ⟨k, hk⟩ : ∃ k, 5 - tl.length = k + 1 := ⟨5 - tl.length - 1, by omega⟩
      rw [hk, List.take_succ_cons] at heq
      have hmem : Char.toLower ' ' ∈ (tl.take 5).map Char.toLower ++
          List.map Char.toLower (' ' :: List.take k s) := by
        apply List.mem_append_right
        rw [List.map_cons]
        exact List.mem_cons_self _ _
      rw [heq] at hmem
      exact absurd hmem (by decide)
  unfold totalsMatch
  rw [if_neg hover, if_neg hunder]

/-- A label whose last character is a digit is never one of the fixed
trailing-space comparands of the resolver's `elif` chain. -/
lemma mk_label_ne_trailing_space {l : List Char} {u : String} {c : Char}
    (hc : l.getLast? = some c) (hd : c.isDigit = true) :
    ¬ (String.mk l = u ++ " ") := by
  intro he
  have h2 := congrArg String.data he
  rw [String.data_append, show (" " : String).data = [' '] from rfl] at h2
  have hdata : l = u.data ++ [' '] := h2
  rw [hdata, List.getLast?_concat, Option.some_inj] at hc
  rw [← hc] at hd
  exact absurd hd (by decide)

lemma append_space_inj {t u : String} (h : t ++ " " = u ++ " ") : t = u := by
  have hd := congrArg String.data h
  rw [String.data_append, String.data_append] at hd
  exact String.ext (List.append_cancel_right hd)

/-- The resolver after its four string-equality guards all fail. -/
lemma get_counter_unfold (x h a : String) (h1 : ¬ x = "No ") (h2 : ¬ x = "Yes ")
    (h3 : ¬ x = h ++ " ") (h4 : ¬ x = a ++ " ") :
    get_counter_event_name x h a =
      (match totalsMatch x.toList with
       | some (line, value) =>
         .ok (some (String.mk
           ((if line.map Char.toLower = "over".toList then "Under".toList
             else "Over".toList) ++ ' ' :: value)))
       | none =>
         match spreadMatch x.toList with
         | some (_, none) => .typeError
         | some (team, some spread) =>
           .ok (some (String.mk
             ((if String.mk team = h then a else h).toList
               ++ ' ' :: pyRepr (pyNeg (pyParseFloat spread)))))
         | none => .ok none) := by
  unfold get_counter_event_name
  rw [if_neg h1, if_neg h2, if_neg h3, if_neg h4]

/-- Resolving a canonical spread label flips the team and the sign of
the spread. -/
lemma resolve_spread {h a : String} (t : String) (p : PyFloat)
    (hgt : GoodTeam t) (hp : canonFloat p = true) :
    get_counter_event_name (String.mk (t.toList ++ ' ' :: pyRepr p)) h a =
      .ok (some (String.mk ((if t = h then a else h).toList ++ ' ' :: pyRepr (pyNeg p)))) := by
  obtain ⟨htne, htnl, htlast, ht4, ht5, -, -⟩ := hgt
  obtain ⟨c, hcl, hcd⟩ := pyRepr_getLast_digit hp
  have hlast2 : (t.toList ++ ' ' :: pyRepr p).getLast? = some c := by
    rw [List.getLast?_append, getLast?_cons_of_ne_nil (pyRepr_ne_nil hp), hcl]
    rfl
  have hne1 : ¬ (String.mk (t.toList ++ ' ' :: pyRepr p) = "No ") := by
    rw [show ("No " : String) = "No" ++ " " from rfl]
    exact mk_label_ne_trailing_space hlast2 hcd
  have hne2 : ¬ (String.mk (t.toList ++ ' ' :: pyRepr p) = "Yes ") := by
    rw [show ("Yes " : String) = "Yes" ++ " " from rfl]
    exact mk_label_ne_trailing_space hlast2 hcd
  have hne3 : ¬ (String.mk (t.toList ++ ' ' :: pyRepr p) = h ++ " ") :=
    mk_label_ne_trailing_space hlast2 hcd
  have hne4 : ¬ (String.mk (t.toList ++ ' ' :: pyRepr p) = a ++ " ") :=
    mk_label_ne_trailing_space hlast2 hcd
  rw [get_counter_unfold _ _ _ hne1 hne2 hne3 hne4]
  rw [show (String.mk (t.toList ++ ' ' :: pyRepr p)).toList = t.toList ++ ' ' :: pyRepr p
    from rfl]
  rw [totalsMatch_none_of_team _ ht4 ht5]
  have hspread : spreadMatch (t.toList ++ ' ' :: pyRepr p) =
      some (t.toList, some (pyRepr p)) := by
    unfold spreadMatch
    have := spreadScan_sep (numTailMatch_pyRepr hp) (pyRepr_head_not_ws hp)
      t.toList [] htne htnl (getLast_all_not_ws htlast)
    simpa using this
  rw [hspread]
  simp only []
  rw [pyParseFloat_pyRepr hp, show String.mk t.toList = t from rfl]

lemma getLast_digit_of_wf {d : List Char} (h : wfDigits d = true) :
    ∃ c, d.getLast? = some c ∧ c.isDigit = true := by
  obtain ⟨hne, hdig⟩ := wfDigits_parts h
  exact ⟨d.getLast hne, List.getLast?_eq_getLast d hne, hdig _ (List.getLast_mem hne)⟩

/-- Resolving a canonical `Over` label yields the matching `Under`
label. -/
lemma resolve_total_over {h a : String} {v : List Char} {c : Char}
    (hvl : v.getLast? = some c) (hcd : c.isDigit = true)
    (hvg : totalsGroups "Over".toList (' ' :: v) = some ("Over".toList, v)) :
    get_counter_event_name (String.mk ("Over".toList ++ ' ' :: v)) h a =
      .ok (some (String.mk ("Under".toList ++ ' ' :: v))) := by
  have hvne : v ≠ [] := by
    intro hv0
    rw [hv0] at hvl
    simp at hvl
  have hlast2 : ("Over".toList ++ ' ' :: v).getLast? = some c := by
    rw [List.getLast?_append, getLast?_cons_of_ne_nil hvne, hvl]
    rfl
  have hne1 : ¬ (String.mk ("Over".toList ++ ' ' :: v) = "No ") := by
    rw [show ("No " : String) = "No" ++ " " from rfl]
    exact mk_label_ne_trailing_space hlast2 hcd
  have hne2 : ¬ (String.mk ("Over".toList ++ ' ' :: v) = "Yes ") := by
    rw [show ("Yes " : String) = "Yes" ++ " " from rfl]
    exact mk_label_ne_trailing_space hlast2 hcd
  have hne3 : ¬ (String.mk ("Over".toList ++ ' ' :: v) = h ++ " ") :=
    mk_label_ne_trailing_space hlast2 hcd
  have hne4 : ¬ (String.mk ("Over".toList ++ ' ' :: v) = a ++ " ") :=
    mk_label_ne_trailing_space hlast2 hcd
  rw [get_counter_unfold _ _ _ hne1 hne2 hne3 hne4]
  rw [show (String.mk ("Over".toList ++ ' ' :: v)).toList = "Over".toList ++ ' ' :: v
    from rfl]
  rw [totalsMatch_over, hvg]
  simp only []
  rw [if_pos (show ("Over".toList).map Char.toLower = "over".toList from rfl)]

/-- Resolving a canonical `Under` label yields the matching `Over`
label. -/
lemma resolve_total_under {h a : String} {v : List Char} {c : Char}
    (hvl : v.getLast? = some c) (hcd : c.isDigit = true)
    (hvg : totalsGroups "Under".toList (' ' :: v) = some ("Under".toList, v)) :
    get_counter_event_name (String.mk ("Under".toList ++ ' ' :: v)) h a =
      .ok (some (String.mk ("Over".toList ++ ' ' :: v))) := by
  have hvne : v ≠ [] := by
    intro hv0
    rw [hv0] at hvl
    simp at hvl
  have hlast2 : ("Under".toList ++ ' ' :: v).getLast? = some c := by
    rw [List.getLast?_append, getLast?_cons_of_ne_nil hvne, hvl]
    rfl
  have hne1 : ¬ (String.mk ("Under".toList ++ ' ' :: v) = "No ") := by
    rw [show ("No " : String) = "No" ++ " " from rfl]
    exact mk_label_ne_trailing_space hlast2 hcd
  have hne2 : ¬ (String.mk ("Under".toList ++ ' ' :: v) = "Yes ") := by
    rw [show ("Yes " : String) = "Yes" ++ " " from rfl]
    exact mk_label_ne_trailing_space hlast2 hcd
  have hne3 : ¬ (String.mk ("Under".toList ++ ' ' :: v) = h ++ " ") :=
    mk_label_ne_trailing_space hlast2 hcd
  have hne4 : ¬ (String.mk ("Under".toList ++ ' ' :: v) = a ++ " ") :=
    mk_label_ne_trailing_space hlast2 hcd
  rw [get_counter_unfold _ _ _ hne1 hne2 hne3 hne4]
  rw [show (String.mk ("Under".toList ++ ' ' :: v)).toList = "Under".toList ++ ' ' :: v
    from rfl]
  rw [totalsMatch_under, hvg]
  simp only []
  rw [if_neg (show ¬ ("Under".toList).map Char.toLower = "over".toList from by decide)]

lemma foldl_max_spec (as : List ℤ) (a : ℤ) :
    a ≤ as.foldl max a ∧ (as.foldl max a = a ∨ as.foldl max a ∈ as) ∧
      ∀ p ∈ as, p ≤ as.foldl max a := by
  induction as generalizing a with
  | nil => simp
  | cons b t ih =>
    have h := ih (max a b)
    refine ⟨le_trans (le_max_left a b) h.1, ?_, ?_⟩
    · rcases h.2.1 with h1 | h1
      · rcases max_choice a b with h2 | h2
        · exact Or.inl (by rw [List.foldl_cons, h1, h2])
        · exact Or.inr (by rw [List.foldl_cons, h1, h2]; exact List.mem_cons_self _ _)
      · exact Or.inr (List.mem_cons_of_mem _ h1)
    · intro p hp
      rcases List.mem_cons.mp hp with rfl | hp
      · exact le_trans (le_max_right a p) h.1
      · exact h.2.2 p hp

lemma bestOdds_spec {l : List ℤ} {m : ℤ} (h : bestOdds l = some m) :
    m ∈ l ∧ ∀ p ∈ l, p ≤ m := by
  cases l with
  | nil => simp [bestOdds, List.max?] at h
  | cons a as =>
    have hm : m = as.foldl max a := by
      have : bestOdds (a :: as) = some (as.foldl max a) := rfl
      rw [this] at h
      exact (Option.some_inj.mp h).symm
    subst hm
    have h := foldl_max_spec as a
    refine ⟨?_, ?_⟩
    · rcases h.2.1 with h1 | h1
      · rw [h1]; exact List.mem_cons_self _ _
      · exact List.mem_cons_of_mem _ h1
    · intro p hp
      rcases List.mem_cons.mp hp with rfl | hp
      · exact h.1
      · exact h.2.2 p hp

/-! ## Claim theorems: odds math and signal detector -/

/-- C9: for every nonzero American price `p`,
`compute_vig_implied_probability p` equals `|p|/(|p|+100)` for `p < 0`
and `100/(100+p)` for `p > 0`, and the value lies strictly between 0
and 1. -/
theorem vig_implied_probability_formula_and_bounds (p : ℤ) (hp : p ≠ 0) :
    compute_vig_implied_probability p =
      (if p < 0 then ((|p| : ℤ) : ℚ) / (((|p| : ℤ) : ℚ) + 100)
       else 100 / (100 + (p : ℚ))) ∧
    0 < compute_vig_implied_probability p ∧
    compute_vig_implied_probability p < 1 :=
  ⟨rfl, cvip_pos p, cvip_lt_one hp⟩

/-- Witness for C9 at the concrete price `+110`. -/
theorem vig_implied_probability_formula_and_bounds_witness :
    0 < compute_vig_implied_probability 110 ∧
      compute_vig_implied_probability 110 < 1 :=
  ⟨(vig_implied_probability_formula_and_bounds 110 (by decide)).2.1,
   (vig_implied_probability_formula_and_bounds 110 (by decide)).2.2⟩

/-- C5: for every pair of nonzero American prices the two no-vig
probabilities are the implied probabilities normalized by their sum,
and they sum to exactly 1. -/
theorem no_vig_probabilities_normalized_sum_one (a b : ℤ)
    (ha : a ≠ 0) (hb : b ≠ 0) :
    compute_no_vig_probabilities a b =
      (compute_vig_implied_probability a /
        (compute_vig_implied_probability a + compute_vig_implied_probability b),
       compute_vig_implied_probability b /
        (compute_vig_implied_probability a + compute_vig_implied_probability b)) ∧
    (compute_no_vig_probabilities a b).1 + (compute_no_vig_probabilities a b).2 = 1 := by
  refine ⟨rfl, ?_⟩
  have h1 := cvip_pos a
  have h2 := cvip_pos b
  show compute_vig_implied_probability a / _ + compute_vig_implied_probability b / _ = 1
  rw [div_add_div_same, div_self (by linarith)]

/-- Witness for C5 at the scenario prices `(-150, +130)` of §8 of the
spec. -/
theorem no_vig_probabilities_normalized_sum_one_witness :
    (compute_no_vig_probabilities (-150) 130).1 +
      (compute_no_vig_probabilities (-150) 130).2 = 1 :=
  (no_vig_probabilities_normalized_sum_one (-150) 130 (by decide) (by decide)).2

/-- C6: `compute_positive_ev_odds p` is `⌈-100/r⌉` when `r = (1-p)/p`
is `< 1` (and nonzero, so that the claim's own division is defined) and
`⌈100*r⌉` otherwise; `compute_positive_ev_odds (1/2) = 100`; and at
`p = 0` it returns the NaN sentinel rather than raising. -/
theorem positive_ev_odds_formula :
    (∀ p : ℚ, p ≠ 0 → (1 - p) / p ≠ 0 →
      compute_positive_ev_odds p =
        (if (1 - p) / p < 1 then EvOddsResult.val ⌈(-100 : ℚ) / ((1 - p) / p)⌉
         else EvOddsResult.val ⌈100 * ((1 - p) / p)⌉)) ∧
    compute_positive_ev_odds (1/2) = EvOddsResult.val 100 ∧
    compute_positive_ev_odds 0 = EvOddsResult.nan := by
  refine ⟨?_, by norm_num [compute_positive_ev_odds], by norm_num [compute_positive_ev_odds]⟩
  intro p hp hr
  simp only [compute_positive_ev_odds, if_neg hp]
  by_cases hlt : (1 - p) / p < 1
  · rw [if_pos hlt, if_pos hlt, if_neg hr]
    have harg : (-1 * 100 / ((1 - p) / p) : ℚ) = (-100 : ℚ) / ((1 - p) / p) := by ring
    rw [harg]
  · rw [if_neg hlt, if_neg hlt]
    have harg : ((1 - p) / p * 100 : ℚ) = 100 * ((1 - p) / p) := by ring
    rw [harg]

/-- Witness for C6 at `p = 3/4` (break-even return `1/3 < 1`). -/
theorem positive_ev_odds_formula_witness :
    compute_positive_ev_odds (3/4) =
      (if ((1:ℚ) - 3/4) / (3/4) < 1 then EvOddsResult.val ⌈(-100 : ℚ) / (((1:ℚ) - 3/4) / (3/4))⌉
       else EvOddsResult.val ⌈100 * (((1:ℚ) - 3/4) / (3/4))⌉) :=
  positive_ev_odds_formula.1 (3/4) (by norm_num) (by norm_num)

/-- C10: at fair probability exactly 1 the break-even return is 0, the
`r < 1` branch divides by it, and `compute_positive_ev_odds` raises
`ZeroDivisionError` instead of returning a price or the NaN sentinel. -/
theorem positive_ev_odds_one_raises_zero_division :
    compute_positive_ev_odds 1 = EvOddsResult.zeroDivErr := by
  norm_num [compute_positive_ev_odds]

/-- C8: the two allocations of `compute_arbitrage_optimization` sum to
exactly 1, and feeding them to `compute_arbitrage_profit` yields two
equal profit values. -/
theorem arbitrage_split_sum_one_profit_equal (a b : ℤ)
    (ha : a ≠ 0) (hb : b ≠ 0) :
    (compute_arbitrage_optimization a b).1 + (compute_arbitrage_optimization a b).2 = 1 ∧
    (compute_arbitrage_profit a (compute_arbitrage_optimization a b).1
        b (compute_arbitrage_optimization a b).2).1 =
      (compute_arbitrage_profit a (compute_arbitrage_optimization a b).1
        b (compute_arbitrage_optimization a b).2).2 := by
  have h1 := crb_pos ha
  have h2 := crb_pos hb
  constructor
  · show (1 / _ + (1 - 1 / _) : ℚ) = 1
    ring
  · show (compute_return_on_bet a * (1 / _) - (1 - 1 / _) : ℚ) =
      compute_return_on_bet b * (1 - 1 / _) - 1 / _
    set r1 := compute_return_on_bet a with hr1
    set r2 := compute_return_on_bet b with hr2
    have hd2 : (1 + r2 : ℚ) ≠ 0 := by linarith
    have hq : ((1 + r1) / (1 + r2) + 1 : ℚ) ≠ 0 := by
      have : (0:ℚ) < (1 + r1) / (1 + r2) := div_pos (by linarith) (by linarith)
      linarith
    field_simp
    ring

/-- Witness for C8 at the arbitrage pair `(+110, +105)` of §8 of the
spec. -/
theorem arbitrage_split_sum_one_profit_equal_witness :
    (compute_arbitrage_optimization 110 105).1 +
        (compute_arbitrage_optimization 110 105).2 = 1 ∧
    (compute_arbitrage_profit 110 (compute_arbitrage_optimization 110 105).1
        105 (compute_arbitrage_optimization 110 105).2).1 =
      (compute_arbitrage_profit 110 (compute_arbitrage_optimization 110 105).1
        105 (compute_arbitrage_optimization 110 105).2).2 :=
  arbitrage_split_sum_one_profit_equal 110 105 (by decide) (by decide)

/-- C7 counterexample: under the claim's stated invariant
(`price > 0`, or `price < 0` with `|price| ≥ 100`) the payout multiple
is NOT monotone in the signed price: `-100 ≤ 50` but
`compute_return_on_bet (-100) = 1 > 1/2 = compute_return_on_bet 50`. -/
theorem return_on_bet_not_monotone_on_claimed_invariant :
    ((-100 : ℤ) < 0 ∧ (100 : ℤ) ≤ |(-100 : ℤ)|) ∧ ((0 : ℤ) < 50) ∧
    (-100 : ℤ) ≤ 50 ∧
    compute_return_on_bet 50 < compute_return_on_bet (-100) := by
  refine ⟨⟨by decide, by decide⟩, by decide, by decide, ?_⟩
  norm_num [compute_return_on_bet]

/-- C7 (amended): restricting the invariant to magnitude ≥ 100 on both
sides (`price ≤ -100` or `price ≥ 100`, the actual American-odds
convention), `compute_return_on_bet` is monotone nondecreasing in the
signed price, and hence `best_odds` — the numeric maximum of the quoted
prices — carries the highest payout multiple. -/
theorem return_on_bet_monotone_amended :
    (∀ a b : ℤ, (a ≤ -100 ∨ 100 ≤ a) → (b ≤ -100 ∨ 100 ≤ b) → a ≤ b →
      compute_return_on_bet a ≤ compute_return_on_bet b) ∧
    (∀ (l : List ℤ) (m : ℤ), bestOdds l = some m →
      (∀ p ∈ l, p ≤ -100 ∨ 100 ≤ p) →
      ∀ p ∈ l, compute_return_on_bet p ≤ compute_return_on_bet m) := by
  have mono : ∀ a b : ℤ, (a ≤ -100 ∨ 100 ≤ a) → (b ≤ -100 ∨ 100 ≤ b) → a ≤ b →
      compute_return_on_bet a ≤ compute_return_on_bet b := by
    intro a b hainv hbinv hab
    unfold compute_return_on_bet
    rcases hainv with haneg | hapos
    · rw [if_pos (by omega : a < 0)]
      have ha0 : (0:ℚ) < ((|a| : ℤ) : ℚ) := by exact_mod_cast abs_pos.mpr (by omega)
      rcases hbinv with hbneg | hbpos
      · rw [if_pos (by omega : b < 0)]
        have hb0 : (0:ℚ) < ((|b| : ℤ) : ℚ) := by exact_mod_cast abs_pos.mpr (by omega)
        have hba : ((|b| : ℤ) : ℚ) ≤ ((|a| : ℤ) : ℚ) := by
          have : |b| ≤ |a| := by
            rw [abs_of_nonpos (by omega : b ≤ 0), abs_of_nonpos (by omega : a ≤ 0)]
            omega
          exact_mod_cast this
        exact (div_le_div_iff_of_pos_left (by norm_num) ha0 hb0).mpr hba
      · rw [if_neg (by omega : ¬ b < 0)]
        have habs : (100 : ℚ) ≤ ((|a| : ℤ) : ℚ) := by
          have : (100:ℤ) ≤ |a| := by
            rw [abs_of_nonpos (by omega : a ≤ 0)]; omega
          exact_mod_cast this
        have h1 : (100 : ℚ) / ((|a| : ℤ) : ℚ) ≤ 1 := by
          rw [div_le_one ha0]; exact habs
        have h2 : (1 : ℚ) ≤ (b : ℚ) / 100 := by
          rw [le_div_iff₀ (by norm_num : (0:ℚ) < 100)]
          have : (100 : ℚ) ≤ (b : ℚ) := by exact_mod_cast hbpos
          linarith
        linarith
    · rcases hbinv with hbneg | hbpos
      · omega
      · rw [if_neg (by omega : ¬ a < 0), if_neg (by omega : ¬ b < 0)]
        apply div_le_div_of_nonneg_right _ (by norm_num)
        exact_mod_cast hab
  refine ⟨mono, ?_⟩
  intro l m hm hinv p hp
  obtain ⟨hmem, hle⟩ := bestOdds_spec hm
  exact mono p m (hinv p hp) (hinv m hmem) (hle p hp)

/-- Witness for C7 (amended): monotone part at `(-150, -120)`, best-odds
part on the list `[-150, -120, 130]`. -/
theorem return_on_bet_monotone_amended_witness :
    compute_return_on_bet (-150) ≤ compute_return_on_bet (-120) ∧
    ∀ p ∈ [(-150 : ℤ), -120, 130], compute_return_on_bet p ≤ compute_return_on_bet 130 :=
  ⟨return_on_bet_monotone_amended.1 (-150) (-120)
      (Or.inl (by decide)) (Or.inl (by decide)) (by decide),
   return_on_bet_monotone_amended.2 [(-150 : ℤ), -120, 130] 130 (by decide)
      (by decide)⟩

/-- C1: the resolver is not total — on a plain team-name label without
a trailing space or number ("Lakers" with home team "Lakers"), the four
equality guards miss (they compare against `home_team + ' '`), both
regex rules reach the spread pattern, its optional number group is
absent, and `float(match.group(2))` raises `TypeError` instead of
returning a not-resolvable signal. -/
theorem counter_event_name_raises_on_plain_team_label :
    get_counter_event_name "Lakers" "Lakers" "Celtics" = PyResult.typeError := by
  decide

/-- The quote row produced for the unresolvable label `"A\nB"` in the
C3 counterexample run. -/
def unresolvedExampleRow : QuoteRow :=
  ⟨"E1", "Lakers", "Celtics", "bookA", "h2h__", "A\nB", none, "CT", "T0", 110, none⟩

/-- C3 counterexample: a quote whose counterpart label is not
resolvable (resolver returns `None`) is NOT passed through with its
no-vig probability left unset: after `fillna(0)` the final
`no_vig_prob` is `0`, the quote is counted in its aggregation group,
`avg_no_vig_odds` becomes `0`, and `ev_pct` is computed from that `0`
(yielding `-1`) instead of the quote being excluded. -/
theorem unresolved_counterpart_filled_zero_counterexample :
    output_odds_rows ⟨"E1", "Lakers", "Celtics", "CT"⟩
        [("h2h__", ⟨"T0", [("bookA", [("A\nB", 110)])]⟩)] =
      PyResult.ok [("E1_bookA_h2h___A\nB_T0", unresolvedExampleRow)] ∧
    unresolvedExampleRow.event_type_counterpart = none ∧
    (fillRow unresolvedExampleRow).no_vig_prob = 0 ∧
    avgNoVig [fillRow unresolvedExampleRow] (fillRow unresolvedExampleRow) = 0 ∧
    evPct [fillRow unresolvedExampleRow] (fillRow unresolvedExampleRow) = some (-1) := by
  have hgroup : groupOf [fillRow unresolvedExampleRow] (fillRow unresolvedExampleRow) =
      [fillRow unresolvedExampleRow] := by decide
  have havg : avgNoVig [fillRow unresolvedExampleRow] (fillRow unresolvedExampleRow) = 0 := by
    unfold avgNoVig
    rw [hgroup]
    simp [unresolvedExampleRow, fillRow]
  refine ⟨by decide, by decide, by decide, havg, ?_⟩
  unfold evPct bestOddsOf
  rw [hgroup, havg]
  rw [show bestOdds (List.map (fun s => s.odds) [fillRow unresolvedExampleRow]) =
    some 110 from by decide]
  rw [Option.map_some']
  norm_num [compute_expected_return, unresolvedExampleRow, fillRow]

/-- C3 (amended): a quote whose counterpart is unresolved (and whose
`no_vig_prob` was never set by a label collision) is passed through
the grouping loop with `no_vig_prob = None`, but the CSV stage then
fills it with 0 (`fillna(0)`, oddsapi.py:267) and includes the quote —
contributing a 0 to the numerator and 1 to the denominator — in
`avg_no_vig_odds` and hence in the downstream EV computation, rather
than excluding it. -/
theorem unresolved_counterpart_filled_zero (rows : List (String × QuoteRow))
    (id : String) (r : QuoteRow) (hmem : (id, r) ∈ rows)
    (hunres : r.event_type_counterpart = none) (hnv : r.no_vig_prob = none) :
    (fillRow r).no_vig_prob = 0 ∧
    (fillRow r).event_type_counterpart = "Not Available" ∧
    fillRow r ∈ groupOf (rows.map (fun p => fillRow p.2)) (fillRow r) ∧
    (0 : ℚ) ∈ (groupOf (rows.map (fun p => fillRow p.2)) (fillRow r)).map
      (fun s => s.no_vig_prob) ∧
    0 < numSportsbooks (rows.map (fun p => fillRow p.2)) (fillRow r) ∧
    avgNoVig (rows.map (fun p => fillRow p.2)) (fillRow r) =
      ((groupOf (rows.map (fun p => fillRow p.2)) (fillRow r)).map
        (fun s => s.no_vig_prob)).sum /
      (numSportsbooks (rows.map (fun p => fillRow p.2)) (fillRow r) : ℚ) := by
  have h1 : (fillRow r).no_vig_prob = 0 := by
    unfold fillRow
    rw [hnv]
    rfl
  have h2 : (fillRow r).event_type_counterpart = "Not Available" := by
    unfold fillRow
    rw [hunres]
    rfl
  have h3 : fillRow r ∈ groupOf (rows.map (fun p => fillRow p.2)) (fillRow r) := by
    unfold groupOf
    rw [List.mem_filter]
    exact ⟨List.mem_map.mpr ⟨(id, r), hmem, rfl⟩, by simp⟩
  refine ⟨h1, h2, h3, ?_, ?_, rfl⟩
  · exact List.mem_map.mpr ⟨fillRow r, h3, h1⟩
  · exact List.length_pos.mpr (List.ne_nil_of_mem h3)

/-- Witness for C3 (amended) at a one-row table. -/
theorem unresolved_counterpart_filled_zero_witness :
    (fillRow ⟨"E2", "H", "A", "bookB", "spreads__", "X\nY", none, "D", "U",
        50, none⟩).no_vig_prob = 0 ∧
    (fillRow ⟨"E2", "H", "A", "bookB", "spreads__", "X\nY", none, "D", "U",
        50, none⟩).event_type_counterpart = "Not Available" ∧
    fillRow ⟨"E2", "H", "A", "bookB", "spreads__", "X\nY", none, "D", "U", 50, none⟩ ∈
      groupOf ([("k", ⟨"E2", "H", "A", "bookB", "spreads__", "X\nY", none, "D", "U",
        50, none⟩)].map (fun p => fillRow p.2))
        (fillRow ⟨"E2", "H", "A", "bookB", "spreads__", "X\nY", none, "D", "U",
          50, none⟩) ∧
    (0 : ℚ) ∈ (groupOf ([("k", ⟨"E2", "H", "A", "bookB", "spreads__", "X\nY", none, "D",
        "U", 50, none⟩)].map (fun p => fillRow p.2))
        (fillRow ⟨"E2", "H", "A", "bookB", "spreads__", "X\nY", none, "D", "U",
          50, none⟩)).map (fun s => s.no_vig_prob) ∧
    0 < numSportsbooks ([("k", ⟨"E2", "H", "A", "bookB", "spreads__", "X\nY", none, "D",
        "U", 50, none⟩)].map (fun p => fillRow p.2))
        (fillRow ⟨"E2", "H", "A", "bookB", "spreads__", "X\nY", none, "D", "U",
          50, none⟩) ∧
    avgNoVig ([("k", ⟨"E2", "H", "A", "bookB", "spreads__", "X\nY", none, "D", "U",
        50, none⟩)].map (fun p => fillRow p.2))
        (fillRow ⟨"E2", "H", "A", "bookB", "spreads__", "X\nY", none, "D", "U",
          50, none⟩) =
      ((groupOf ([("k", ⟨"E2", "H", "A", "bookB", "spreads__", "X\nY", none, "D", "U",
        50, none⟩)].map (fun p => fillRow p.2))
        (fillRow ⟨"E2", "H", "A", "bookB", "spreads__", "X\nY", none, "D", "U",
          50, none⟩)).map (fun s => s.no_vig_prob)).sum /
      (numSportsbooks ([("k", ⟨"E2", "H", "A", "bookB", "spreads__", "X\nY", none, "D",
        "U", 50, none⟩)].map (fun p => fillRow p.2))
        (fillRow ⟨"E2", "H", "A", "bookB", "spreads__", "X\nY", none, "D", "U",
          50, none⟩) : ℚ) :=
  unresolved_counterpart_filled_zero
    [("k", ⟨"E2", "H", "A", "bookB", "spreads__", "X\nY", none, "D", "U", 50, none⟩)]
    "k" ⟨"E2", "H", "A", "bookB", "spreads__", "X\nY", none, "D", "U", 50, none⟩
    (by decide) (by decide) (by decide)

/-- C4: when no aggregated row has `ev_pct > 0` the detector returns
the no-data result (`None`) regardless of arbitrage flags, and the
arbitrage dataframe is only ever returned together with at least one
positive-EV row. -/
theorem no_positive_ev_reports_no_data :
    (∀ df : List FinalRow, (∀ r ∈ df, r.ev_pct ≤ 0) →
      get_all_positive_ev_arbitrage_opps df = OppsResult.noData) ∧
    (∀ (df : List FinalRow) (pos arb : List FinalRow),
      get_all_positive_ev_arbitrage_opps df = OppsResult.posAndArb pos arb →
      ∃ r ∈ df, 0 < r.ev_pct) := by
  constructor
  · intro df h
    unfold get_all_positive_ev_arbitrage_opps
    have hnil : df.filter (fun r => decide (0 < r.ev_pct)) = [] := by
      rw [List.filter_eq_nil_iff]
      intro r hr
      simpa using not_lt.mpr (h r hr)
    simp [hnil]
  · intro df pos arb h
    unfold get_all_positive_ev_arbitrage_opps at h
    by_cases h0 : (df.filter (fun r => decide (0 < r.ev_pct))).length = 0
    · simp [h0] at h
    · have : df.filter (fun r => decide (0 < r.ev_pct)) ≠ [] := by
        intro hc
        exact h0 (by rw [hc]; rfl)
      obtain ⟨r, hr⟩ := List.exists_mem_of_ne_nil _ this
      have := List.mem_filter.mp hr
      exact ⟨r, this.1, by simpa using this.2⟩

/-- Witness for C4: a snapshot whose only row has a negative EV but an
arbitrage flag still yields `noData`; a snapshot with a positive-EV
arbitrage row yields the pair, hence a positive-EV row exists. -/
theorem no_positive_ev_reports_no_data_witness :
    get_all_positive_ev_arbitrage_opps [⟨"Lakers ", -1, true⟩] = OppsResult.noData ∧
    ∃ r ∈ [FinalRow.mk "Lakers " 1 true], 0 < r.ev_pct :=
  ⟨no_positive_ev_reports_no_data.1 [⟨"Lakers ", -1, true⟩] (by decide),
   no_positive_ev_reports_no_data.2 [⟨"Lakers ", 1, true⟩]
      [⟨"Lakers ", 1, true⟩] [⟨"Lakers ", 1, true⟩] (by rfl)⟩

end Superodds
